import Mathlib

/-!
Verification of the ROM packaging pipeline in `scripts/parse_roms.py`.

Bytes are modelled as `Nat`, byte strings as `List Nat`.  The external LZMA
codec is an abstract function `cf : List Nat → List Nat`; the script only
ever composes its output, so every property below is parametric in it.
Fallible code paths (Python exceptions) are modelled with `Option`/`Except`:
`none` / `.error` means the Python code raises at that point.
-/

/-- Python `range(0, stop, step)` for a positive `step`:
the offsets `0, step, 2*step, …` strictly below `stop`. -/
def pyRangeStep (stop step : Nat) : List Nat :=
  (List.range ((stop + step - 1) / step)).map (fun i => i * step)

/-- Python slice `data[i : i + sz]`. -/
def pySlice (data : List Nat) (i sz : Nat) : List Nat :=
  (data.drop i).take sz

/-- Model of `[data[i : i + bankSize] for i in range(0, len(data), bankSize)]`
(src lines 836 and 856): the consecutive `bankSize` slices of the input,
the last possibly short. -/
def banksOf (bankSize : Nat) (data : List Nat) : List (List Nat) :=
  (pyRangeStep data.length bankSize).map (fun i => pySlice data i bankSize)

/-- Model of `struct.pack("<l", x)` for a non-negative value: four bytes, little endian. -/
def int32le (x : Nat) : List Nat :=
  [x % 256, x / 256 % 256, x / 65536 % 256, x / 16777216 % 256]

/-- Substring test, modelling Python's `needle in haystack` on strings. -/
def strContains (hay needle : String) : Bool :=
  (List.range (hay.toList.length + 1)).any
    (fun i => ((hay.toList.drop i).take needle.toList.length) == needle.toList)

/-- Python string `<=`: lexicographic comparison by code point. -/
def charListLE : List Char → List Char → Bool
  | [], _ => true
  | _ :: _, [] => false
  | a :: as, b :: bs =>
    if a.toNat < b.toNat then true
    else if b.toNat < a.toNat then false
    else charListLE as bs

/-- Python `s.endswith(t)`. -/
def listEndsWith (s t : List Char) : Bool :=
  (s.reverse.take t.length) == t.reverse

/-- Python `s.lower()`. -/
def pyLower (s : List Char) : List Char :=
  s.map Char.toLower

/-- Model of `compress_lzma(data, level=DONT_COMPRESS)` (src lines 141-146): when the
`--compress_gb_speed` flag is set the function raises `NotImplementedError`
(modelled as `none`); otherwise it returns the raw bytes unchanged, which is
exactly the framing the runtime decoder expects for an uncompressed bank. -/
def lzmaDontCompress (compress_gb_speed : Bool) (data : List Nat) : Option (List Nat) :=
  if compress_gb_speed then none else some data

/-! ## Family size caps (src lines 99-104) -/

def MAX_COMPRESSED_NES_SIZE : Nat := 0x00080010
def MAX_COMPRESSED_PCE_SIZE : Nat := 0x00049000
def MAX_COMPRESSED_WSV_SIZE : Nat := 0x00080000
def MAX_COMPRESSED_SG_COL_SIZE : Nat := 60 * 1024
def MAX_COMPRESSED_A7800_SIZE : Nat := 131200
def MAX_COMPRESSED_MSX_SIZE : Nat := 136 * 1024

/-- The compression-credit constant of the adaptive GB strategy
(src line 873: `compression_credit = 26`). -/
def compression_credit : Nat := 26

/-- The candidate list of the adaptive GB strategy (src lines 874-877):
per-bank compressed lengths without bank 0 (`compressed_banks[1:]`) and
without near-empty banks (`i > 98`). -/
def gbCandidates (lens : List Nat) : List Nat :=
  (lens.drop 1).filter (fun i => decide (98 < i))

/-- The per-bank keep-compressed flags of the GB branch (src lines 862-890),
parametrised by the credit constant (source value `compression_credit = 26`),
taking the list of per-bank compressed lengths (bank 0 included).
`none` models a Python `IndexError`: `compress_its[0]` on an empty list, or
`ordered_size[credit]` when the index is out of range (which Python also
raises for index `-1` on an empty list). -/
def gb_compress_its (compress_gb_speed : Bool) (credit : Nat) (lens : List Nat) :
    Option (List Bool) :=
  if lens.length = 0 then none
  else
    let base := (List.replicate lens.length true).set 0 false
    if compress_gb_speed then
      let ordered_size := List.insertionSort (fun a b => a ≤ b) (gbCandidates lens)
      let credit2 := if ordered_size.length < credit then ordered_size.length - 1 else credit
      match ordered_size.get? credit2 with
      | none => none
      | some threshold =>
          some (List.zipWith (fun len b => if threshold ≤ len then false else b) lens base)
    else some base

/-- The reassembly loop of the GB branch (src lines 893-901): a kept-compressed
bank contributes its compressed payload, any other bank goes through the
`DONT_COMPRESS` framing, which raises when the speed flag is set. -/
def gbAssemble (compress_gb_speed : Bool) :
    List (List Nat × (List Nat × Bool)) → Option (List (List Nat))
  | [] => some []
  | (bank, (compressed_bank, it)) :: rest =>
    match (if it then some compressed_bank else lzmaDontCompress compress_gb_speed bank) with
    | none => none
    | some ob =>
      match gbAssemble compress_gb_speed rest with
      | none => none
      | some obs => some (ob :: obs)

/-- The GB/GBC branch of `_compress_rom` (src lines 854-903): split into
16384-byte banks, compress each, choose per-bank flags, reassemble.  The
result is the list of emitted per-bank payloads (`none` = the branch raises). -/
def gbOutputBanks (compress_gb_speed : Bool) (cf : List Nat → List Nat) (data : List Nat) :
    Option (List (List Nat)) :=
  let banks := banksOf 16384 data
  let compressed_banks := banks.map cf
  match gb_compress_its compress_gb_speed compression_credit (compressed_banks.map List.length) with
  | none => none
  | some its => gbAssemble compress_gb_speed (banks.zip (compressed_banks.zip its))

/-- The SMS/GG/MD container assembly (src lines 833-853) with the evident
reading `pack = struct.pack("<l", ·)`.  NOTE: the source calls the bare name
`pack`, which is unbound (the module only does `import struct`), so at
runtime this branch raises `NameError` before writing anything; this
definition models the assembly the code as written is clearly meant to
perform. -/
def smsOutputIntended (cf : List Nat → List Nat) (data : List Nat) : List Nat :=
  let banks := banksOf 131072 data
  let compressed_banks := banks.map cf
  (([[0x53, 0x4D, 0x53, 0x2B], int32le compressed_banks.length] ++
      compressed_banks.map (fun b => int32le b.length)) ++ compressed_banks).flatten

/-- Modelled from the spec's words for the container binary format of the
multi-bank families: magic `"SMS+"` (4 bytes), the bank count as a
little-endian 32-bit integer, one little-endian 32-bit compressed length per
bank in order, then the concatenated compressed bank payloads, where the
banks are the consecutive 128 KiB slices of the input (`0x53 0x4D 0x53 0x2B`
are the byte values of `S`, `M`, `S`, `+`). -/
def smsSpecContainer (cf : List Nat → List Nat) (data : List Nat) : List Nat :=
  let banks := banksOf 131072 data
  [0x53, 0x4D, 0x53, 0x2B] ++ int32le banks.length ++
    (banks.map (fun b => int32le (cf b).length)).flatten ++ (banks.map cf).flatten

/-- Outcome of `_compress_rom` for one image: returned without writing
(`skip`), wrote a compressed counterpart file (`wrote`), or raised (`err`). -/
inductive CmpRes where
  | skip : CmpRes
  | wrote : List Nat → CmpRes
  | err : CmpRes
deriving DecidableEq

/-- Model of `ROMParser._compress_rom` (src lines 767-903), dispatching on the system
variable name exactly as the source's `elif` chain does.  The size compared
against each family cap is the raw file size (`rom.path.stat().st_size`,
equal to `len(data)`).  The SMS/GG/MD branch raises `NameError` (bare `pack`
is unbound, src lines 842/845).  An unmatched variable name falls off the end
of the chain: nothing is written. -/
def compressRomModel (variable_name : String) (compress_gb_speed : Bool)
    (cf : List Nat → List Nat) (data : List Nat) : CmpRes :=
  if strContains variable_name "nes_system" then
    if MAX_COMPRESSED_NES_SIZE < data.length then .skip else .wrote (cf data)
  else if strContains variable_name "pce_system" then
    if MAX_COMPRESSED_PCE_SIZE < data.length then .skip else .wrote (cf data)
  else if strContains variable_name "msx_system" then
    if MAX_COMPRESSED_MSX_SIZE < data.length then .skip else .wrote (cf data)
  else if strContains variable_name "wsv_system" then
    if MAX_COMPRESSED_WSV_SIZE < data.length then .skip else .wrote (cf data)
  else if strContains variable_name "a7800_system" then
    if MAX_COMPRESSED_A7800_SIZE < data.length then .skip else .wrote (cf data)
  else if variable_name == "col_system" || variable_name == "sg1000_system" then
    if MAX_COMPRESSED_SG_COL_SIZE < data.length then .skip else .wrote (cf data)
  else if variable_name == "sms_system" || variable_name == "gg_system" ||
      variable_name == "md_system" then
    .err
  else if strContains variable_name "gb_system" then
    match gbOutputBanks compress_gb_speed cf data with
    | none => .err
    | some obs => .wrote obs.flatten
  else .skip

/-- The per-family compressible-size caps, read off the same `elif` chain as
`compressRomModel` (src lines 784-831); `none` for families without a cap. -/
def capOf (variable_name : String) : Option Nat :=
  if strContains variable_name "nes_system" then some MAX_COMPRESSED_NES_SIZE
  else if strContains variable_name "pce_system" then some MAX_COMPRESSED_PCE_SIZE
  else if strContains variable_name "msx_system" then some MAX_COMPRESSED_MSX_SIZE
  else if strContains variable_name "wsv_system" then some MAX_COMPRESSED_WSV_SIZE
  else if strContains variable_name "a7800_system" then some MAX_COMPRESSED_A7800_SIZE
  else if variable_name == "col_system" || variable_name == "sg1000_system" then
    some MAX_COMPRESSED_SG_COL_SIZE
  else none

/-- Size of the rom file the image contributes to `total_rom_size` in
`generate_system` (src line 1081): when a compressed counterpart was written
it replaces the raw file in the rom list, otherwise the raw file's size is
counted; `none` when the run aborted. -/
def romStoredSize (variable_name : String) (compress_gb_speed : Bool)
    (cf : List Nat → List Nat) (data : List Nat) : Option Nat :=
  match compressRomModel variable_name compress_gb_speed cf data with
  | .skip => some data.length
  | .wrote out => some out.length
  | .err => none

/-! ## Image discovery, id assignment and save flags -/

/-- A discovered image, as the id-assignment and descriptor-table code see it. -/
structure RomRec where
  name : String
  publish : Bool
  size : Nat
deriving DecidableEq

/-- The id-assignment loop of `generate_system` (src lines 1032-1034):
`for rom in roms: rom.rom_id = current_id; current_id += 1`.  Every rom in
the list receives an id, published or not. -/
def assignIds : List RomRec → Nat → (List (RomRec × Nat)) × Nat
  | [], c => ([], c)
  | r :: rs, c =>
    let rest := assignIds rs (c + 1)
    ((r, c) :: rest.1, rest.2)

/-- Model of `generate_rom_entries` (src lines 551-554): unpublished roms are skipped,
only published roms get a descriptor-table row. -/
def descriptorRows (roms : List (RomRec × Nat)) : List (RomRec × Nat) :=
  roms.filter (fun rn => rn.1.publish)

/-- Model of how `parse` threads `current_id` through the `generate_system` calls in a
fixed declared family order (src lines 1168-1467). -/
def assignIdsRun : List (List RomRec) → Nat → (List (List (RomRec × Nat))) × Nat
  | [], c => ([], c)
  | fam :: fams, c =>
    let a := assignIds fam c
    let rest := assignIdsRun fams a.2
    (a.1 :: rest.1, rest.2)

/-- The filename selection of `find_roms` (src lines 524-536): keep the files
whose lowered name ends with the (lowered, dot-prepended) extension, sorted. -/
def findRomFiles (files : List String) (extension : String) : List String :=
  let ext2 := pyLower extension.toList
  let ext3 := if ext2.take 1 == ['.'] then ext2 else '.' :: ext2
  List.insertionSort (fun a b => charListLE a.toList b.toList = true)
    (files.filter (fun f => listEndsWith (pyLower f.toList) ext3))

/-- Model of how `generate_system` accumulates `find_roms` results per declared extension,
in extension order (src lines 945-947): `for e in extensions: roms_raw += …`. -/
def discoveredOrder (files : List String) (exts : List String) : List String :=
  (exts.map (findRomFiles files)).flatten

/-- Model of `ROM.__init__` (src lines 274-277): the per-file `enable_save` metadata is
or-ed with the `args.save` flag. -/
def rom_enable_save (enable_save_meta : String) (args_save : Bool) : Bool :=
  (enable_save_meta == "1") || args_save

/-- Model of the `find_roms` post-processing (src lines 538-542): a display name ending in
`_no_save` forces `enable_save` off. -/
def findRomsEnableSave (display_name : String) (enable_save_meta : String)
    (args_save : Bool) : Bool :=
  if listEndsWith display_name.toList "_no_save".toList then false
  else rom_enable_save enable_save_meta args_save

/-- Flag default: `--no-save` is an argparse `store_false` action on `args.save`
(src line 1572), so the flag's default value is `True`. -/
def argsSaveDefault : Bool := true

/-! ## Run totals and emitted linker directives -/

/-- The per-family `larger_rom_size` loop (src lines 1115-1118), over the
(extension, size) pairs of all uncompressed roms found for the family. -/
def largerRomSizeOf (roms : List (String × Nat)) : Nat :=
  roms.foldl
    (fun acc r =>
      if ["gg", "sms", "md", "gen", "bin"].contains r.1 && decide (acc < r.2)
      then r.2 else acc) 0

/-- Model of the `sega_larger_rom_size` accumulation: updated after the sms, gg and md
`generate_system` calls only (src lines 1253, 1272, 1290). -/
def segaLargerAccum (smsLarger ggLarger mdLarger : Nat) : Nat :=
  [smsLarger, ggLarger, mdLarger].foldl (fun acc l => if acc < l then l else acc) 0

/-- The values written into the three linker-directive files. -/
structure EmitPlan where
  saveflashLen : Nat
  offsaveflashLen : Nat
  cacheflashLen : Nat
deriving DecidableEq

/-- Value of `sega_larger_rom_size` as emitted: the accumulated value is overwritten
with 0 at src line 1471, just before the directive files are written (the
`total_size += sega_larger_rom_size` accounting above it is commented out). -/
def sega_larger_rom_size_emitted : Nat := 0

/-- The tail of `ROMParser.parse` (src lines 1469-1510): the combined total,
the single fatal checks, and the linker-directive values.  `.error` models
`exit(-1)` before any linker-directive file is written. -/
def parseFinal (totalSave totalRom totalImg : Nat) (offSaveflashFlag : Bool)
    (largerSave : Nat) (flashSize : Nat) : Except String EmitPlan :=
  if totalSave + totalRom + totalImg = 0 then Except.error "no roms"
  else if flashSize < totalSave + totalRom + totalImg then Except.error "overflow"
  else
    Except.ok
      { saveflashLen := totalSave
        offsaveflashLen := if offSaveflashFlag then largerSave else 0
        cacheflashLen := sega_larger_rom_size_emitted }

/-- Model of `write_if_changed` (src lines 1121-1127): returns whether the file is
(re)written, given the current on-disk content (`none` = file absent). -/
def write_if_changed (old_data : Option String) (data : String) : Bool :=
  decide (¬ (some data = old_data))

/-- The per-system C file write in `generate_system` (src line 1061):
`open(file, "w")` truncates and rewrites unconditionally, never consulting
the existing content. -/
def systemCFileWritten (_old_data : Option String) (_data : String) : Bool :=
  true

example : gb_compress_its true compression_credit [200, 100, 100] = some [false, false, false] := by
  decide

example : gb_compress_its true compression_credit [200, 100, 120] = some [false, true, false] := by
  decide

example : gb_compress_its false compression_credit [200, 100, 120] = some [false, true, true] := by
  decide

example : gb_compress_its true compression_credit [200, 50] = none := by decide

example : banksOf 4 [1,2,3,4,5,6,7,8,9] = [[1,2,3,4],[5,6,7,8],[9]] := by decide

example : strContains "sms_system" "nes_system" = false := by decide

example : strContains "my_nes_system" "nes_system" = true := by decide

example : compressRomModel "sms_system" false (fun _ => [9]) [1, 2] = CmpRes.err := rfl

example : smsOutputIntended (fun _ => [9]) [1, 2] =
    [83, 77, 83, 43] ++ [1, 0, 0, 0] ++ [1, 0, 0, 0] ++ [9] := by decide

/-! ## Claims -/

/-- Claim C1, counterexample: with the speed flag and the source's credit
value 26, per-bank compressed lengths `[200, 100, 100]` give the candidate
list `L = [100, 100]`; the claim requires `len(L) - min(26, len(L)-1) = 1`
bank left uncompressed among the candidates, but the engine marks both
candidate banks uncompressed (every bank tied with the selected threshold is
re-framed raw, with no tie-breaking by original bank order). -/
theorem C1_counterexample :
    gb_compress_its true compression_credit [200, 100, 100] = some [false, false, false] ∧
    (([false, false, false].drop 1).count false ≠
      (gbCandidates [200, 100, 100]).length -
        min compression_credit ((gbCandidates [200, 100, 100]).length - 1)) := by
  decide

/-- Claim C2: the credit clamp `if compression_credit > len(ordered_size)`
(src line 881) uses a strict comparison, so the threshold access
`ordered_size[compression_credit]` (src line 884) is out of bounds when the
candidate list has length exactly 26, and an empty candidate list makes the
clamp produce index `-1`, which also raises `IndexError` on an empty list:
the algorithm faults on both inputs the claim covers, instead of keeping the
default flags. -/
theorem C2_fault :
    gb_compress_its true compression_credit (200 :: List.replicate 26 100) = none ∧
    gb_compress_its true compression_credit [200, 50] = none := by
  decide

/-- Claim C3, counterexample: in the SMS/GG/MD container assembly every bank,
bank 0 included, is the codec's output (`compressed_banks = [compress(bank)
for bank in banks]`, src line 837); for a codec sending the single bank
`[1, 2]` to `[9]`, the emitted bank-0 payload is `[9]`, not the raw bank.
Moreover the branch as actually written raises `NameError` (bare `pack`),
emitting no container at all. -/
theorem C3_counterexample :
    smsOutputIntended (fun _ => [9]) [1, 2] =
      [83, 77, 83, 43] ++ [1, 0, 0, 0] ++ [1, 0, 0, 0] ++ [9] ∧
    (smsOutputIntended (fun _ => [9]) [1, 2]).drop 12 ≠ [1, 2] ∧
    compressRomModel "sms_system" false (fun _ => [9]) [1, 2] = CmpRes.err := by
  refine ⟨by decide, by decide, rfl⟩

/-- Claim C4, counterexample: the id-assignment loop gives every rom in the
list an identifier, unpublished roms included: with an unpublished rom ahead
of a published one, the unpublished rom receives id 0 and the first published
rom receives id 1, so published images do not get contiguous ids from 0.
Also, images within a family are gathered per declared extension and only
sorted within one extension, so the overall order is not alphabetical. -/
theorem C4_counterexample :
    (assignIds [⟨"aaa", false, 10⟩, ⟨"bbb", true, 20⟩] 0).1 =
      [(⟨"aaa", false, 10⟩, 0), (⟨"bbb", true, 20⟩, 1)] ∧
    (⟨"aaa", false, 10⟩ : RomRec).publish = false ∧
    descriptorRows (assignIds [⟨"aaa", false, 10⟩, ⟨"bbb", true, 20⟩] 0).1 =
      [(⟨"bbb", true, 20⟩, 1)] ∧
    discoveredOrder ["b.gb", "a.gbc"] ["gb", "gbc"] = ["b.gb", "a.gbc"] ∧
    ["b.gb", "a.gbc"] ≠ ["a.gbc", "b.gb"] := by
  refine ⟨rfl, rfl, rfl, by decide, by decide⟩

/-- Claim C5, counterexample: a run whose sms family contains one 1000-byte
image has a largest shared-cache ROM size of 1000, but the emitted
`__CACHEFLash_LENGTH__` value is 0: `sega_larger_rom_size` is overwritten
with 0 (src line 1471) before `build/cacheflash.ld` is written. -/
theorem C5_counterexample :
    segaLargerAccum (largerRomSizeOf [("sms", 1000)]) 0 0 = 1000 ∧
    parseFinal 0 1000 0 false 0 100000 = Except.ok ⟨0, 0, 0⟩ ∧
    (0 : Nat) ≠ 1000 := by
  refine ⟨by decide, rfl, by decide⟩

/-- Claim C5, amended: whenever the run reaches the emission step, the value
written as `__CACHEFLASH_LENGTH__` is 0, whatever images were processed: the
accumulated sega maximum is discarded at src line 1471. -/
theorem C5_amended (ts tr ti ls fs : Nat) (off : Bool) (p : EmitPlan)
    (h : parseFinal ts tr ti off ls fs = Except.ok p) : p.cacheflashLen = 0 := by
  unfold parseFinal at h
  by_cases h0 : ts + tr + ti = 0
  · rw [if_pos h0] at h
    exact absurd h (by simp)
  · rw [if_neg h0] at h
    by_cases h1 : fs < ts + tr + ti
    · rw [if_pos h1] at h
      exact absurd h (by simp)
    · rw [if_neg h1] at h
      cases h
      rfl

/-- Claim C5, witness for the amended theorem at a concrete successful run. -/
theorem C5_witness : (⟨0, 0, 0⟩ : EmitPlan).cacheflashLen = 0 :=
  C5_amended 0 1 0 0 10 false ⟨0, 0, 0⟩ rfl

/-- Claim C6, counterexample: with the `--compress_gb_speed` flag set, the
don't-compress sentinel path of `compress_lzma` raises `NotImplementedError`
(src lines 142-144) instead of returning the framed raw bytes. -/
theorem C6_counterexample : lzmaDontCompress true [1] ≠ some [1] := by
  decide

/-- Claim C6, amended: without the speed-priority flag, invoking the codec
with the don't-compress sentinel returns the raw bytes unchanged — the exact
framing the single runtime decoder path consumes for uncompressed banks —
for every input; with the flag set it raises `NotImplementedError`. -/
theorem C6_amended (data : List Nat) :
    lzmaDontCompress false data = some data ∧ lzmaDontCompress true data = none := by
  exact ⟨rfl, rfl⟩

/-- Claim C9, counterexample: the per-system C source files are generated
files too, and `generate_system` rewrites them unconditionally with
`open(file, "w")` (src line 1061), touching content and mtime even when the
new content equals what is on disk — unlike `write_if_changed`. -/
theorem C9_counterexample :
    systemCFileWritten (some "x") "x" = true ∧ write_if_changed (some "x") "x" = false := by
  refine ⟨rfl, by simp [write_if_changed]⟩

/-- Claim C9, amended: if the combined ROM + save + cover-art total exceeds
the flash capacity, the run exits fatally (single check on the single
combined total, src line 1485) before any linker-directive file is written;
and every file emitted through `write_if_changed` — the linker-directive
files and `build/config.h` — is left untouched when its new content equals
the on-disk content.  (The per-system C files are rewritten unconditionally.) -/
theorem C9_amended (ts tr ti ls fs : Nat) (off : Bool) (hover : fs < ts + tr + ti) :
    parseFinal ts tr ti off ls fs = Except.error "overflow" ∧
    (∀ s, write_if_changed (some s) s = false) := by
  constructor
  · unfold parseFinal
    rw [if_neg (by omega), if_pos hover]
  · intro s
    simp [write_if_changed]

/-- Claim C9, witness for the amended theorem at a concrete overflowing run. -/
theorem C9_witness :
    parseFinal 0 5 0 false 0 3 = Except.error "overflow" ∧
    (∀ s, write_if_changed (some s) s = false) :=
  C9_amended 0 5 0 0 3 false (by decide)

/-- Claim C10: `enable_save` is the per-file metadata or-ed with `args.save`
(src line 277) whose default is true (`--no-save` is a `store_false` action,
src line 1572), so with the default flag every discovered image has saves
enabled regardless of metadata unless its display name ends in `_no_save`
(src lines 538-542); the metadata can only enable, never disable, and a
disabled save implies `--no-save` was given or the name ends in `_no_save`. -/
theorem C10_save (display_name meta : String) (args_save : Bool) :
    argsSaveDefault = true ∧
    rom_enable_save meta args_save = ((meta == "1") || args_save) ∧
    findRomsEnableSave display_name meta true =
      !(listEndsWith display_name.toList "_no_save".toList) ∧
    (findRomsEnableSave display_name meta args_save = false →
      args_save = false ∨ listEndsWith display_name.toList "_no_save".toList = true) := by
  refine ⟨rfl, rfl, ?_, ?_⟩
  · unfold findRomsEnableSave rom_enable_save
    by_cases h : listEndsWith display_name.toList "_no_save".toList <;> simp [h]
  · intro h
    unfold findRomsEnableSave rom_enable_save at h
    by_cases hn : listEndsWith display_name.toList "_no_save".toList
    · exact Or.inr hn
    · left
      rw [if_neg hn] at h
      exact (Bool.or_eq_false_iff.mp h).2

/-- Claim C10, witness at a concrete image: metadata `"0"`, default save
flag, display name ending in `_no_save`. -/
theorem C10_witness :
    argsSaveDefault = true ∧
    rom_enable_save "0" true = (("0" == "1") || true) ∧
    findRomsEnableSave "Tetris_no_save" "0" true =
      !(listEndsWith "Tetris_no_save".toList "_no_save".toList) ∧
    (findRomsEnableSave "Tetris_no_save" "0" true = false →
      true = false ∨ listEndsWith "Tetris_no_save".toList "_no_save".toList = true) :=
  C10_save "Tetris_no_save" "0" true

/-! ## Helper lemmas about the bank slicing -/

theorem ceil_div_pos {n s : Nat} (hs : 0 < s) (hn : 0 < n) :
    (n + s - 1) / s = ((n - s) + s - 1) / s + 1 := by
  rcases Nat.lt_or_ge s n with h | h
  · have e : n + s - 1 = ((n - s) + s - 1) + s := by omega
    rw [e, Nat.add_div_right _ hs]
  · have e : n - s = 0 := by omega
    rw [e, Nat.zero_add, Nat.div_eq_of_lt (show s - 1 < s by omega), Nat.zero_add]
    exact Nat.div_eq_of_lt_le (by omega) (by omega)

theorem banksOf_nil (s : Nat) : banksOf s [] = [] := by
  have e : (s - 1) / s = 0 := by
    cases s with
    | zero => rfl
    | succ s => exact Nat.div_eq_of_lt (by omega)
  simp [banksOf, pyRangeStep, e]

theorem pyRangeStep_pos {stop step : Nat} (hstep : 0 < step) (hstop : 0 < stop) :
    pyRangeStep stop step = 0 :: (pyRangeStep (stop - step) step).map (· + step) := by
  unfold pyRangeStep
  rw [ceil_div_pos hstep hstop, List.range_succ_eq_map, List.map_cons, List.map_map,
    List.map_map]
  congr 1
  · simp
  · apply List.map_congr_left
    intro i _
    simp only [Function.comp_apply]
    rw [Nat.succ_mul]

theorem banksOf_cons {s : Nat} (hs : 0 < s) {data : List Nat} (hd : data ≠ []) :
    banksOf s data = data.take s :: banksOf s (data.drop s) := by
  have hn : 0 < data.length := List.length_pos.mpr hd
  unfold banksOf
  rw [List.length_drop, pyRangeStep_pos hs hn, List.map_cons, List.map_map]
  refine congrArg₂ List.cons (by simp [pySlice]) ?_
  apply List.map_congr_left
  intro i _
  simp only [Function.comp_apply, pySlice]
  rw [List.drop_drop, Nat.add_comm i s]

theorem banksOf_flatten_aux {s : Nat} (hs : 0 < s) :
    ∀ (n : Nat) (data : List Nat), data.length ≤ n → (banksOf s data).flatten = data := by
  intro n
  induction n with
  | zero =>
    intro data h
    have e : data = [] := List.eq_nil_of_length_eq_zero (by omega)
    subst e
    rw [banksOf_nil]
    rfl
  | succ n ih =>
    intro data h
    by_cases hd : data = []
    · subst hd
      rw [banksOf_nil]
      rfl
    · rw [banksOf_cons hs hd, List.flatten_cons,
        ih (data.drop s) (by
          rw [List.length_drop]
          have := List.length_pos.mpr hd
          omega)]
      exact List.take_append_drop s data

theorem banksOf_flatten {s : Nat} (hs : 0 < s) (data : List Nat) :
    (banksOf s data).flatten = data :=
  banksOf_flatten_aux hs data.length data le_rfl

theorem banksOf_get? (s : Nat) (data : List Nat) (i : Nat)
    (hi : i < (banksOf s data).length) :
    (banksOf s data).get? i = some ((data.drop (i * s)).take s) := by
  unfold banksOf pyRangeStep pySlice at hi ⊢
  rw [List.length_map, List.length_map, List.length_range] at hi
  rw [List.get?_map, List.get?_map, List.get?_range hi]
  rfl

theorem banksOf_length_le (s : Nat) (data : List Nat) :
    ∀ b ∈ banksOf s data, b.length ≤ s := by
  intro b hb
  unfold banksOf at hb
  obtain ⟨i, _, e⟩ := List.mem_map.mp hb
  subst e
  exact List.length_take_le s _

/-- Claim C7: with `pack` read as `struct.pack("<l", ·)` (the evident intent;
as written the branch raises `NameError` instead), the assembled SMS/GG/MD
container is exactly the claimed layout: 4-byte magic `"SMS+"`, bank count as
int32 LE, one int32 LE compressed length per bank in order, then the
concatenated compressed payloads; and the banks are the consecutive
128 KiB slices of the input: they flatten back to the input, each is at most
128 KiB, and bank `i` is `data[i*131072 : (i+1)*131072]`. -/
theorem C7_format (cf : List Nat → List Nat) (data : List Nat) :
    smsOutputIntended cf data = smsSpecContainer cf data ∧
    (banksOf 131072 data).flatten = data ∧
    (∀ b ∈ banksOf 131072 data, b.length ≤ 131072) ∧
    (∀ i, i < (banksOf 131072 data).length →
      (banksOf 131072 data).get? i = some ((data.drop (i * 131072)).take 131072)) := by
  refine ⟨?_, banksOf_flatten (by omega) data, banksOf_length_le _ _, ?_⟩
  · unfold smsOutputIntended smsSpecContainer
    simp [List.flatten_append, List.map_map, List.append_assoc, Function.comp]
    rfl
  · intro i hi
    exact banksOf_get? _ _ _ hi

/-- Claim C7, witness: the format theorem applied at a concrete one-bank
image with the identity codec. -/
theorem C7_witness :
    smsOutputIntended (fun b => b) [1, 2, 3] = smsSpecContainer (fun b => b) [1, 2, 3] ∧
    (banksOf 131072 [1, 2, 3]).flatten = [1, 2, 3] ∧
    (∀ b ∈ banksOf 131072 [1, 2, 3], b.length ≤ 131072) ∧
    (∀ i, i < (banksOf 131072 [1, 2, 3]).length →
      (banksOf 131072 [1, 2, 3]).get? i = some (([1, 2, 3].drop (i * 131072)).take 131072)) :=
  C7_format (fun b => b) [1, 2, 3]

/-! ## Helper lemmas about the GB branch -/

theorem gbAssemble_false (l : List (List Nat × (List Nat × Bool))) :
    gbAssemble false l = some (l.map (fun x => if x.2.2 then x.2.1 else x.1)) := by
  induction l with
  | nil => rfl
  | cons x tl ih =>
    obtain ⟨bank, cb, it⟩ := x
    cases it <;> simp [gbAssemble, lzmaDontCompress, ih]

theorem gbAssemble_true_cons (bank cb : List Nat) (tl : List (List Nat × (List Nat × Bool))) :
    gbAssemble true ((bank, (cb, false)) :: tl) = none := by
  simp [gbAssemble, lzmaDontCompress]

theorem gb_compress_its_false_cons (credit l0 : Nat) (ls : List Nat) :
    gb_compress_its false credit (l0 :: ls) = some (false :: List.replicate ls.length true) := by
  unfold gb_compress_its
  simp [List.replicate_succ]

theorem gb_compress_its_some_head (speed : Bool) (credit l0 : Nat) (ls : List Nat)
    (its : List Bool) (h : gb_compress_its speed credit (l0 :: ls) = some its) :
    ∃ t, its = false :: t := by
  unfold gb_compress_its at h
  rw [if_neg (by simp)] at h
  cases speed with
  | false =>
    simp only [Bool.false_eq_true, if_false, List.length_cons, List.replicate_succ,
      List.set_cons_zero, Option.some.injEq] at h
    exact ⟨_, h.symm⟩
  | true =>
    simp only [if_true, List.length_cons, List.replicate_succ, List.set_cons_zero] at h
    split at h
    · exact absurd h (by simp)
    · simp only [List.zipWith_cons_cons, ite_self, Option.some.injEq] at h
      exact ⟨_, h.symm⟩

/-- Claim C3, amended: bank 0 is stored uncompressed only in the GB family
and only when the speed flag is unset: the first emitted GB bank is then the
raw first 16 KiB slice of the input.  With the speed flag set the GB branch
raises (`NotImplementedError` in the `DONT_COMPRESS` framing of bank 0) and
emits nothing.  For the SMS/GG/MD family the branch raises `NameError`
(bare `pack`) and emits nothing — and even its intended assembly applies the
codec to every bank, bank 0 included (see the counterexample). -/
theorem C3_amended (cf : List Nat → List Nat) (data : List Nat) (hd : data ≠ []) :
    (∃ rest, gbOutputBanks false cf data = some (data.take 16384 :: rest)) ∧
    gbOutputBanks true cf data = none ∧
    compressRomModel "sms_system" false cf data = CmpRes.err := by
  have hbanks : banksOf 16384 data = data.take 16384 :: banksOf 16384 (data.drop 16384) :=
    banksOf_cons (by omega) hd
  refine ⟨?_, ?_, rfl⟩
  · unfold gbOutputBanks
    rw [hbanks]
    simp only [List.map_cons]
    rw [gb_compress_its_false_cons]
    simp only [List.zip_cons_cons]
    rw [gbAssemble_false]
    simp only [List.map_cons]
    refine ⟨List.map (fun x => if x.2.2 = true then x.2.1 else x.1)
        ((banksOf 16384 (List.drop 16384 data)).zip
          ((List.map cf (banksOf 16384 (List.drop 16384 data))).zip
            (List.replicate
              (List.map List.length (List.map cf (banksOf 16384 (List.drop 16384 data)))).length
              true))), ?_⟩
    rw [if_neg (by simp)]
  · unfold gbOutputBanks
    rw [hbanks]
    simp only [List.map_cons]
    cases hits : gb_compress_its true compression_credit
        ((cf (data.take 16384)).length ::
          ((banksOf 16384 (data.drop 16384)).map cf).map List.length) with
    | none => rfl
    | some its =>
      obtain ⟨t, rfl⟩ := gb_compress_its_some_head _ _ _ _ _ hits
      show gbAssemble true
          ((data.take 16384 :: banksOf 16384 (data.drop 16384)).zip
            ((cf (data.take 16384) :: (banksOf 16384 (data.drop 16384)).map cf).zip
              (false :: t))) = none
      simp only [List.zip_cons_cons]
      exact gbAssemble_true_cons _ _ _

/-- Claim C3, witness for the amended theorem at a concrete one-bank image. -/
theorem C3_witness :
    (∃ rest, gbOutputBanks false (fun _ => [7]) [5] = some ([5].take 16384 :: rest)) ∧
    gbOutputBanks true (fun _ => [7]) [5] = none ∧
    compressRomModel "sms_system" false (fun _ => [7]) [5] = CmpRes.err :=
  C3_amended (fun _ => [7]) [5] (by decide)

/-! ## Helper lemmas about id assignment -/

theorem assignIds_eq (l : List RomRec) (c : Nat) :
    assignIds l c = (l.zip (List.range' c l.length), c + l.length) := by
  induction l generalizing c with
  | nil => simp [assignIds]
  | cons r rs ih =>
    simp only [assignIds, ih, List.length_cons, List.range'_succ, List.zip_cons_cons]
    exact Prod.ext rfl (by omega)

theorem assignIdsRun_flatten (fams : List (List RomRec)) (c : Nat) :
    (assignIdsRun fams c).1.flatten =
      fams.flatten.zip (List.range' c fams.flatten.length) ∧
    (assignIdsRun fams c).2 = c + fams.flatten.length := by
  induction fams generalizing c with
  | nil => simp [assignIdsRun]
  | cons f fs ih =>
    simp only [assignIdsRun, assignIds_eq, List.flatten_cons, List.length_append]
    constructor
    · rw [(ih (c + f.length)).1]
      have hr := List.range'_append c f.length fs.flatten.length 1
      simp only [Nat.one_mul] at hr
      rw [Nat.add_comm f.length fs.flatten.length, ← hr,
        List.zip_append (by simp [List.length_range'])]
    · rw [(ih (c + f.length)).2]
      omega

/-- Claim C4, amended: the run-wide counter starts at the initial value and
is threaded through the families in their fixed declared order; every
discovered image, published or not, receives the next identifier (the ids
over the whole run are exactly `c, c+1, …` in discovery order), so the ids
are contiguous over all images but not over the published ones; unpublished
images still receive no descriptor-table row (every row is published). -/
theorem C4_amended (fams : List (List RomRec)) (c : Nat) :
    (assignIdsRun fams c).1.flatten =
      fams.flatten.zip (List.range' c fams.flatten.length) ∧
    (assignIdsRun fams c).2 = c + fams.flatten.length ∧
    (descriptorRows ((assignIdsRun fams c).1.flatten)).all (fun p => p.1.publish) = true := by
  refine ⟨(assignIdsRun_flatten fams c).1, (assignIdsRun_flatten fams c).2, ?_⟩
  simp only [descriptorRows, List.all_eq_true, List.mem_filter]
  intro p hp
  exact hp.2

/-- Claim C8: for every family with a compressible-size cap, an image whose
raw size exceeds the cap makes `_compress_rom` return without writing a
compressed counterpart and without raising (the run continues), and the size
counted toward the ROM totals is then the raw file's size. -/
theorem C8_skip (vn : String) (cap : Nat) (speed : Bool) (cf : List Nat → List Nat)
    (data : List Nat) (hcap : capOf vn = some cap) (hgt : cap < data.length) :
    compressRomModel vn speed cf data = CmpRes.skip ∧
    romStoredSize vn speed cf data = some data.length := by
  have h2 : compressRomModel vn speed cf data = CmpRes.skip := by
    unfold capOf at hcap
    unfold compressRomModel
    split at hcap
    case isTrue h =>
      injection hcap with e
      subst e
      rw [if_pos h, if_pos hgt]
    case isFalse h1 =>
      rw [if_neg h1]
      split at hcap
      case isTrue h =>
        injection hcap with e
        subst e
        rw [if_pos h, if_pos hgt]
      case isFalse h2 =>
        rw [if_neg h2]
        split at hcap
        case isTrue h =>
          injection hcap with e
          subst e
          rw [if_pos h, if_pos hgt]
        case isFalse h3 =>
          rw [if_neg h3]
          split at hcap
          case isTrue h =>
            injection hcap with e
            subst e
            rw [if_pos h, if_pos hgt]
          case isFalse h4 =>
            rw [if_neg h4]
            split at hcap
            case isTrue h =>
              injection hcap with e
              subst e
              rw [if_pos h, if_pos hgt]
            case isFalse h5 =>
              rw [if_neg h5]
              split at hcap
              case isTrue h =>
                injection hcap with e
                subst e
                rw [if_pos h, if_pos hgt]
              case isFalse h6 =>
                exact Option.noConfusion hcap
  refine ⟨h2, ?_⟩
  unfold romStoredSize
  rw [h2]

/-- Claim C8, witness: a Colecovision image one byte over the 60 KiB cap is
skipped and counted raw. -/
theorem C8_witness :
    compressRomModel "col_system" false (fun _ => []) (List.replicate 61441 0) = CmpRes.skip ∧
    romStoredSize "col_system" false (fun _ => []) (List.replicate 61441 0) =
      some (List.replicate 61441 0).length :=
  C8_skip "col_system" MAX_COMPRESSED_SG_COL_SIZE false (fun _ => []) (List.replicate 61441 0)
    (by rfl) (by simp only [List.length_replicate, MAX_COMPRESSED_SG_COL_SIZE]; omega)

/-! ## Helper lemmas about sorted count -/

theorem sorted_countP_lt_le {s : List Nat} (hs : List.Sorted (fun a b => a ≤ b) s) :
    ∀ {c T : Nat}, s.get? c = some T → s.countP (fun x => decide (x < T)) ≤ c := by
  induction s with
  | nil =>
    intro c T hT
    simp at hT
  | cons a l ih =>
    intro c T hT
    cases c with
    | zero =>
      have ha : a = T := by simpa using hT
      subst ha
      have h0 : List.countP (fun x => decide (x < a)) (a :: l) = 0 := by
        rw [List.countP_eq_zero]
        intro x hx
        rcases List.mem_cons.mp hx with rfl | hx
        · simp
        · have := List.rel_of_sorted_cons hs x hx
          simp only [decide_eq_true_eq]
          omega
      omega
    | succ c =>
      have hT2 : l.get? c = some T := by simpa using hT
      have hle := ih hs.of_cons hT2
      rw [List.countP_cons]
      split <;> omega

theorem sorted_nodup_countP_lt_eq {s : List Nat} (hs : List.Sorted (fun a b => a ≤ b) s)
    (hnd : s.Nodup) :
    ∀ {c T : Nat}, s.get? c = some T → s.countP (fun x => decide (x < T)) = c := by
  induction s with
  | nil =>
    intro c T hT
    simp at hT
  | cons a l ih =>
    intro c T hT
    cases c with
    | zero =>
      have ha : a = T := by simpa using hT
      subst ha
      rw [List.countP_eq_zero]
      intro x hx
      rcases List.mem_cons.mp hx with rfl | hx
      · simp
      · have := List.rel_of_sorted_cons hs x hx
        simp only [decide_eq_true_eq]
        omega
    | succ c =>
      have hT2 : l.get? c = some T := by simpa using hT
      have hTl : T ∈ l := List.get?_mem hT2
      have haT : a < T := by
        have hle := List.rel_of_sorted_cons hs T hTl
        have hne : a ≠ T := by
          intro e
          subst e
          exact (List.nodup_cons.mp hnd).1 hTl
        omega
      rw [List.countP_cons, ih hs.of_cons (List.nodup_cons.mp hnd).2 hT2]
      split
      · omega
      · rename_i hfalse
        exact absurd (by simpa using haT) hfalse

theorem zipWith_getD_bool (f : Nat → Bool → Bool) :
    ∀ (xs : List Nat) (bs : List Bool) (i : Nat), i < xs.length → i < bs.length →
      (List.zipWith f xs bs).getD i false = f (xs.getD i 0) (bs.getD i false) := by
  intro xs
  induction xs with
  | nil =>
    intro bs i h1 h2
    simp at h1
  | cons x xt ih =>
    intro bs i h1 h2
    cases bs with
    | nil => simp at h2
    | cons b bt =>
      cases i with
      | zero => rfl
      | succ i =>
        simp only [List.zipWith_cons_cons, List.getD_cons_succ]
        exact ih bt i (by simpa using h1) (by simpa using h2)

theorem replicate_set_getD (n i : Nat) (hi : i < n) :
    ((List.replicate n true).set 0 false).getD i false = decide (0 < i) := by
  cases n with
  | zero => omega
  | succ n =>
    rw [List.replicate_succ, List.set_cons_zero]
    cases i with
    | zero => rfl
    | succ i =>
      simp only [List.getD_cons_succ]
      have hin : i < n := by omega
      rw [List.getD_eq_getElem _ _ (by simpa using hin)]
      simp

theorem gb_compress_its_speed_eq (k : Nat) (lens : List Nat) :
    gb_compress_its true k lens =
      if lens.length = 0 then none
      else
        match (List.insertionSort (fun a b => a ≤ b) (gbCandidates lens)).get?
            (if (List.insertionSort (fun a b => a ≤ b) (gbCandidates lens)).length < k then
              (List.insertionSort (fun a b => a ≤ b) (gbCandidates lens)).length - 1
            else k) with
        | none => none
        | some threshold =>
            some (List.zipWith (fun len b => if threshold ≤ len then false else b) lens
              ((List.replicate lens.length true).set 0 false)) := rfl

theorem gb_speed_its_eq (k : Nat) (lens : List Nat) (T : Nat)
    (hlens0 : ¬ lens.length = 0)
    (hcred : (List.insertionSort (fun a b => a ≤ b) (gbCandidates lens)).get?
        (if (List.insertionSort (fun a b => a ≤ b) (gbCandidates lens)).length < k then
          (List.insertionSort (fun a b => a ≤ b) (gbCandidates lens)).length - 1
        else k) = some T) :
    gb_compress_its true k lens =
      some (List.zipWith (fun len b => if T ≤ len then false else b) lens
        ((List.replicate lens.length true).set 0 false)) := by
  rw [gb_compress_its_speed_eq, if_neg hlens0, hcred]

/-- Claim C1, amended: with the speed flag, credit `k`, nonempty candidate
list `L` (bank 0 and near-empty banks excluded) and `k ≠ len(L)` (so the
threshold access is in bounds), the engine picks the threshold `T` at index
`min(k, len(L)-1)` of the ascending sort of `L` and marks kept-compressed
exactly the banks (other than bank 0) whose compressed length is strictly
below `T`.  Hence at most `min(k, len(L)-1)` candidates stay compressed,
with equality — the kept ones being exactly the `min(k, len(L)-1)`
smallest — when the candidate lengths are pairwise distinct; every candidate
tied with `T` is stored uncompressed, with no tie-breaking by bank order,
and the number left uncompressed is `len(L)` minus the number kept. -/
theorem C1_amended (k : Nat) (lens : List Nat)
    (hL : gbCandidates lens ≠ [])
    (hk : k ≠ (gbCandidates lens).length) :
    ∃ T its,
      (List.insertionSort (fun a b => a ≤ b) (gbCandidates lens)).get?
          (min k ((gbCandidates lens).length - 1)) = some T ∧
      gb_compress_its true k lens = some its ∧
      its.length = lens.length ∧
      (∀ i, i < lens.length →
        its.getD i false = (decide (0 < i) && decide (lens.getD i 0 < T))) ∧
      (gbCandidates lens).countP (fun x => decide (x < T)) ≤
        min k ((gbCandidates lens).length - 1) ∧
      ((gbCandidates lens).Nodup →
        (gbCandidates lens).countP (fun x => decide (x < T)) =
          min k ((gbCandidates lens).length - 1)) ∧
      (gbCandidates lens).countP (fun x => decide (T ≤ x)) +
        (gbCandidates lens).countP (fun x => decide (x < T)) =
          (gbCandidates lens).length := by
  have hlenpos : 0 < (gbCandidates lens).length := List.length_pos.mpr hL
  have hlens0 : ¬ lens.length = 0 := by
    intro e
    have e2 : lens = [] := List.eq_nil_of_length_eq_zero e
    subst e2
    exact hL rfl
  have hperm : (List.insertionSort (fun a b => a ≤ b) (gbCandidates lens)).Perm
      (gbCandidates lens) := List.perm_insertionSort _ _
  have hsort : List.Sorted (fun a b => a ≤ b)
      (List.insertionSort (fun a b => a ≤ b) (gbCandidates lens)) :=
    List.sorted_insertionSort _ _
  have holen : (List.insertionSort (fun a b => a ≤ b) (gbCandidates lens)).length =
      (gbCandidates lens).length := hperm.length_eq
  have hcred : (if (List.insertionSort (fun a b => a ≤ b) (gbCandidates lens)).length < k
        then (List.insertionSort (fun a b => a ≤ b) (gbCandidates lens)).length - 1
        else k) = min k ((gbCandidates lens).length - 1) := by
    rw [holen]
    rcases Nat.lt_or_ge (gbCandidates lens).length k with h | h
    · rw [if_pos h]
      omega
    · rw [if_neg (by omega)]
      omega
  have hc_lt : min k ((gbCandidates lens).length - 1) <
      (List.insertionSort (fun a b => a ≤ b) (gbCandidates lens)).length := by
    rw [holen]
    omega
  obtain ⟨T, hT⟩ : ∃ T, (List.insertionSort (fun a b => a ≤ b) (gbCandidates lens)).get?
      (min k ((gbCandidates lens).length - 1)) = some T :=
    ⟨_, List.get?_eq_get hc_lt⟩
  have hits := gb_speed_its_eq k lens T hlens0 (by rw [hcred]; exact hT)
  refine ⟨T, _, hT, hits, ?_, ?_, ?_, ?_, ?_⟩
  · simp [List.length_zipWith, List.length_set, List.length_replicate]
  · intro i hi
    have hx : ∀ x : Nat, (if T ≤ x then false else true) = decide (x < T) := by
      intro x
      by_cases h : T ≤ x
      · rw [if_pos h]
        exact (decide_eq_false (by omega)).symm
      · rw [if_neg h]
        exact (decide_eq_true (by omega)).symm
    rw [zipWith_getD_bool _ lens _ i hi
      (by simp only [List.length_set, List.length_replicate]; exact hi)]
    rw [replicate_set_getD lens.length i hi]
    by_cases h0 : i = 0
    · subst h0
      simp
    · have hpos : 0 < i := Nat.pos_of_ne_zero h0
      rw [decide_eq_true hpos, Bool.true_and]
      exact hx _
  · rw [← hperm.countP_eq]
    exact sorted_countP_lt_le hsort hT
  · intro hnd
    rw [← hperm.countP_eq]
    exact sorted_nodup_countP_lt_eq hsort (hperm.nodup_iff.mpr hnd) hT
  · have hlen := List.length_eq_countP_add_countP (fun x => decide (x < T)) (gbCandidates lens)
    have hfe : ((gbCandidates lens).countP fun a => decide ¬(decide (a < T) = true)) =
        (gbCandidates lens).countP (fun x => decide (T ≤ x)) := by
      congr 1
      funext a
      simp [Nat.not_lt]
    omega

/-- Claim C1, witness for the amended theorem: credit 26 (the source value)
and per-bank compressed lengths `[200, 100, 120]`. -/
theorem C1_witness :
    ∃ T its,
      (List.insertionSort (fun a b => a ≤ b) (gbCandidates [200, 100, 120])).get?
          (min 26 ((gbCandidates [200, 100, 120]).length - 1)) = some T ∧
      gb_compress_its true 26 [200, 100, 120] = some its ∧
      its.length = ([200, 100, 120] : List Nat).length ∧
      (∀ i, i < ([200, 100, 120] : List Nat).length →
        its.getD i false = (decide (0 < i) && decide (([200, 100, 120] : List Nat).getD i 0 < T))) ∧
      (gbCandidates [200, 100, 120]).countP (fun x => decide (x < T)) ≤
        min 26 ((gbCandidates [200, 100, 120]).length - 1) ∧
      ((gbCandidates [200, 100, 120]).Nodup →
        (gbCandidates [200, 100, 120]).countP (fun x => decide (x < T)) =
          min 26 ((gbCandidates [200, 100, 120]).length - 1)) ∧
      (gbCandidates [200, 100, 120]).countP (fun x => decide (T ≤ x)) +
        (gbCandidates [200, 100, 120]).countP (fun x => decide (x < T)) =
          (gbCandidates [200, 100, 120]).length :=
  C1_amended 26 [200, 100, 120] (by decide) (by decide)
